import Mathlib

/-!
# Backbone.SuperView (src/SuperView.js)

A shallow embedding of the view base class of `src/SuperView.js`: the placement
helpers `placeAt` / `placeIn`, the widget factory `progressBar`, and the binding
ledger `bindTo` / `unbind` / `destroy`.

JavaScript objects are heap references (natural numbers).  A method of the view
becomes a function that takes the view and the world around it and returns the
new view and world.  The world holds the handler table of every evented object
and the sequence of calls the view has made on its host (jQuery, Backbone), so
that "which operation was invoked, and in which order" is a statement about data.
-/

namespace SuperView

/-! ## Data model -/

/-- Reference to a JavaScript object (a view, a model, an event bus). -/
abbrev Ref := Nat

/-- Identity of a handler function. -/
abbrev Fn := Nat

/-- What `placeAt` receives as `node` and what `this.$el` holds: a designator of a DOM node. -/
abbrev Node := Nat

/-- One subscription in the handler table of an evented object: the event name, the
handler, and the execution context given at registration (`none` when no context was
given). -/
structure Handler where
  evt : String
  fn : Fn
  ctx : Option Ref
deriving DecidableEq, Repr

/-- The three jQuery insertion methods named in the lookup table of `placeAt` / `placeIn`. -/
inductive Method where
  | prepend
  | append
  | html
deriving DecidableEq, Repr

/-- The receiver of an insertion: `$(node)` in `placeAt`, `this.$(node)` (a lookup scoped to
the view's own root) in `placeIn`. -/
inductive Target where
  | document (node : Node)
  | within (root : Node) (selector : Node)
deriving DecidableEq, Repr

/-- A call made on the host: on an evented object, on jQuery, on the base view, or of one of
the view's own lifecycle hooks. -/
inductive Call where
  | on (obj : Ref) (evt : String) (fn : Fn) (ctx : Option Ref)
  | off (obj : Ref) (evt : Option String) (fn : Option Fn) (ctx : Option Ref)
  | insert (target : Target) (method : Method) (content : Node)
  | remove (view : Ref)
  | postRender (view : Ref)
  | postPlaceAt (view : Ref)
  | preDestroy (view : Ref)
deriving DecidableEq, Repr

/-- The world around a view: the handler table of every evented object, and the calls made
so far, oldest first. -/
structure World where
  handlers : Ref → List Handler
  calls : List Call

/-- The view object: its identity (`this`), its root node (`this.$el`) and the ledger
`this._bindings`, absent (`none`) until the first `bindTo`. -/
structure View where
  cid : Ref
  el : Node
  _bindings : Option (List Ref)
deriving DecidableEq, Repr

/-- Append one call to the record of calls. -/
def World.record (w : World) (c : Call) : World :=
  { w with calls := w.calls ++ [c] }

/-! ## The evented-object capability of the host -/

/-- Does a subscription fall under the filter of an `off(evt, fn, ctx)` call?  An argument
that is absent places no restriction. -/
def Handler.selected (h : Handler) (evt : Option String) (fn : Option Fn)
    (ctx : Option Ref) : Bool :=
  (match evt with | none => true | some e => decide (h.evt = e)) &&
  (match fn with | none => true | some f => decide (h.fn = f)) &&
  (match ctx with | none => true | some c => decide (h.ctx = some c))

/-- Modelled from the spec: the `subscribe(event, handler, context)` operation of an evented
object (Backbone's `bind` / `on`, which is not in src/).  The subscription is added after the
ones the object already holds.  An event name is one name, taken as it is. -/
def World.on (w : World) (obj : Ref) (evt : String) (fn : Fn) (ctx : Option Ref) : World :=
  { handlers := fun o => if o = obj then w.handlers o ++ [⟨evt, fn, ctx⟩] else w.handlers o
    calls := w.calls ++ [Call.on obj evt fn ctx] }

/-- Modelled from the spec: the `unsubscribe(event, handler, context-or-none)` operation of an
evented object (Backbone's `off`, which is not in src/).  Every subscription of `obj` that
agrees with all the arguments given is detached; the others stay, in order.  Detaching what
is not attached changes nothing. -/
def World.off (w : World) (obj : Ref) (evt : Option String) (fn : Option Fn)
    (ctx : Option Ref) : World :=
  { handlers := fun o =>
      if o = obj then (w.handlers o).filter (fun h => !h.selected evt fn ctx) else w.handlers o
    calls := w.calls ++ [Call.off obj evt fn ctx] }

/-- Modelled from the spec: an emission of `evt` on `obj` (Backbone's `trigger`, which is not
in src/).  The result lists the invocations it makes, in registration order: the handler and
the context it was registered with (`none`: it runs with `obj` itself as context). -/
def World.trigger (w : World) (obj : Ref) (evt : String) : List (Fn × Option Ref) :=
  ((w.handlers obj).filter (fun h => decide (h.evt = evt))).map (fun h => (h.fn, h.ctx))

/-! ## Binding: `bindTo`, `unbind`, `destroy` -/

/-- The object `bindTo` returns: the closure over `obj`, `evt` and `fn`.  Its one operation
is `Binding.unbind`. -/
structure Binding where
  obj : Ref
  evt : String
  fn : Fn
deriving DecidableEq, Repr

/-- The `unbind` method of the object returned by `bindTo`: `obj.off(evt, fn)`, with no
context argument. -/
def Binding.unbind (b : Binding) (w : World) : World :=
  w.off b.obj (some b.evt) (some b.fn) none

/-- Method `bindTo(obj, evt, fn)`:
`this._bindings = this._bindings || []; obj.bind(evt, fn, this); this._bindings.push(obj);`
and the returned object. -/
def bindTo (v : View) (w : World) (obj : Ref) (evt : String) (fn : Fn) :
    View × World × Binding :=
  let bindings := v._bindings.getD []
  let w := w.on obj evt fn (some v.cid)
  let v := { v with _bindings := some (bindings ++ [obj]) }
  (v, w, { obj := obj, evt := evt, fn := fn })

/-- Method `unbind()`: return at once when there is no ledger; otherwise, for each entry `b`
of the ledger in order, `b.off(null, null, this)`. -/
def unbind (v : View) (w : World) : View × World :=
  match v._bindings with
  | none => (v, w)
  | some bs => (v, bs.foldl (fun w b => w.off b none none (some v.cid)) w)

/-- Modelled from the spec: the host framework's `remove` (the view's own removal from the
document, Backbone's `View.remove`, which is not in src/).  It is recorded as a call on the
host and touches no handler table of an evented object. -/
def remove (v : View) (w : World) : View × World :=
  (v, w.record (Call.remove v.cid))

/-- Method `destroy()`: the bare expression `this.destroy` (no call, no effect), then
`this.unbind()`, then `this.remove()`. -/
def destroy (v : View) (w : World) : View × World :=
  let r := unbind v w
  remove r.1 r.2

/-- Hook `preDestroy`: an empty function. -/
def preDestroy (v : View) (w : World) : View × World := (v, w)

/-- Hook `postRender`: an empty function. -/
def postRender (v : View) (w : World) : View × World := (v, w)

/-- Hook `postPlaceAt`: an empty function. -/
def postPlaceAt (v : View) (w : World) : View × World := (v, w)

/-- The handlers an object holds that were registered with `ctx` as their context. -/
def World.handlersFor (w : World) (obj : Ref) (ctx : Ref) : List Handler :=
  (w.handlers obj).filter (fun h => decide (h.ctx = some ctx))

/-- The ledger as a list: empty when absent. -/
def View.ledger (v : View) : List Ref := v._bindings.getD []

/-- A world in which no object holds a handler and no call has been made. -/
def World.empty : World := { handlers := fun _ => [], calls := [] }

/-- A newly constructed view: no ledger yet. -/
def View.fresh (cid : Ref) (el : Node) : View := { cid := cid, el := el, _bindings := none }

/-! ## Rendering: `placeAt`, `placeIn`, `progressBar` -/

/-- The expression `x || d` on an optional string argument: an omitted argument and the
empty string are both falsy, so both give `d`. -/
def orDefault (x : Option String) (d : String) : String :=
  match x with
  | none => d
  | some s => if s = "" then d else s

/-- A JavaScript value as `progressBar` uses its `width` argument.  The method makes two
observations of it and nothing else: whether it is falsy (in `width || 100`; among numbers
`0`, `-0` and `NaN` are falsy) and the text that `'...' + width + '...'` gives for it.  Every
number, integer or not, negative or not, is such a value; how the language prints it is taken
as it comes. -/
structure JsValue where
  falsy : Bool
  text : String
deriving DecidableEq, Repr

/-- The number literal `100`: truthy, printed `100`. -/
def JsValue.hundred : JsValue := { falsy := false, text := "100" }

/-- The number `0`: falsy, printed `0`. -/
def JsValue.zero : JsValue := { falsy := true, text := "0" }

/-- The number `50`: truthy, printed `50`. -/
def JsValue.fifty : JsValue := { falsy := false, text := "50" }

/-- The number `-12.5`: truthy, printed `-12.5`. -/
def JsValue.minusTwelveAndHalf : JsValue := { falsy := false, text := "-12.5" }

/-- The expression `x || d` on an optional value: an omitted argument and a falsy value both
give `d`. -/
def orDefaultValue (x : Option JsValue) (d : JsValue) : JsValue :=
  match x with
  | none => d
  | some a => if a.falsy then d else a

/-- Result of reading a property of the object literal
`{ 'first' : 'prepend', 'last' : 'append', 'only' : 'html' }`: one of its own three entries,
a member it inherits from `Object.prototype` (a function or an object: truthy, and not the
name of a jQuery method), or `undefined`. -/
inductive Member where
  | own (m : Method)
  | inherited
  | undefined
deriving DecidableEq, Repr

/-- The lookup `{ ... }[position]`.  `proto` tells which property names the literal inherits
from `Object.prototype` in the engine at hand; own entries are found first. -/
def methodTable (proto : String → Bool) (position : String) : Member :=
  if position = "first" then Member.own Method.prepend
  else if position = "last" then Member.own Method.append
  else if position = "only" then Member.own Method.html
  else if proto position then Member.inherited
  else Member.undefined

/-- The expression `m || 'html'`: only `undefined` is falsy among the results of the lookup. -/
def Member.orHtml : Member → Member
  | Member.undefined => Member.own Method.html
  | m => m

/-- The property names every ECMAScript 5 engine puts on `Object.prototype`. -/
def es5ObjectPrototype (name : String) : Bool :=
  decide (name ∈ ["constructor", "toString", "toLocaleString", "valueOf", "hasOwnProperty",
    "isPrototypeOf", "propertyIsEnumerable"])

/-- What a method raises: calling `$(node)[method]` when that property is `undefined`. -/
inductive Error where
  | typeError
deriving DecidableEq, Repr

/-- Method `placeAt(node, position)`: `position = position || 'last'`, the table lookup with
its `|| 'html'`, the call `$(node)[method](this.$el)`, then `this.postPlaceAt()` and
`return this`.  When `method` is not a method name, `$(node)[method]` is no function and the
call raises before the hook is reached. -/
def placeAt (proto : String → Bool) (v : View) (w : World) (node : Node)
    (position : Option String) : Except Error (View × World) :=
  let position := orDefault position "last"
  match (methodTable proto position).orHtml with
  | Member.own method =>
    let w := w.record (Call.insert (Target.document node) method v.el)
    let w := w.record (Call.postPlaceAt v.cid)
    Except.ok (postPlaceAt v w)
  | _ => Except.error Error.typeError

/-- Method `placeIn(el, node, position)`: the same lookup, then `this.$(node)[method](el)`
and `return this`; no hook is called. -/
def placeIn (proto : String → Bool) (v : View) (w : World) (el : Node) (node : Node)
    (position : Option String) : Except Error (View × World) :=
  let position := orDefault position "last"
  match (methodTable proto position).orHtml with
  | Member.own method =>
    Except.ok (v, w.record (Call.insert (Target.within v.el node) method el))
  | _ => Except.error Error.typeError

/-- A detached DOM element as `make` builds it: tag, attributes, and the markup set as its
content. -/
structure Element where
  tagName : String
  attributes : List (String × String)
  innerHTML : String
deriving DecidableEq, Repr

/-- Modelled from the spec: the host's node creation (Backbone's `View.make(tagName,
attributes, content)`, which is not in src/): a new element with these attributes and this
content, attached to nothing. -/
def make (tagName : String) (attributes : List (String × String)) (content : String) :
    Element :=
  { tagName := tagName, attributes := attributes, innerHTML := content }

/-- Method `progressBar(width, classes)`: `width = width || 100`,
`classes = classes || 'progress-striped active'`, then `this.make('div', ...)`.  The view and
the world are handed back as they came. -/
def progressBar (v : View) (w : World) (width : Option JsValue) (classes : Option String) :
    Element × View × World :=
  let width := orDefaultValue width JsValue.hundred
  let classes := orDefault classes "progress-striped active"
  let el := make "div" [("class", "progress " ++ classes)]
    ("<div class=\"bar bar-warning\" style=\"width:" ++ width.text ++ "%;\"></div>")
  (el, v, w)

/-- Split a list of characters at blanks, dropping empty pieces; `cur` holds the characters
of the piece being read, last one first. -/
def splitBlanks : List Char → List Char → List String
  | [], cur => if cur = [] then [] else [String.mk cur.reverse]
  | c :: cs, cur =>
    if c = ' ' then
      (if cur = [] then [] else [String.mk cur.reverse]) ++ splitBlanks cs []
    else splitBlanks cs (c :: cur)

/-- The class list of an element: the blank-separated names of its `class` attribute. -/
def Element.classList (e : Element) : List String :=
  match e.attributes.lookup "class" with
  | none => []
  | some s => splitBlanks s.data []

/-- The markup of the inner bar for a width printed as `width`. -/
def barMarkup (width : String) : String :=
  "<div class=\"bar bar-warning\" style=\"width:" ++ width ++ "%;\"></div>"

/-! ## Sequences of calls -/

/-- One step of a client of the binding methods: a `bindTo` call, or a call of the `unbind`
operation of the object that the `i`-th `bindTo` call (counted from 0) returned. -/
inductive Step where
  | bindTo (obj : Ref) (evt : String) (fn : Fn)
  | release (i : Nat)
deriving DecidableEq, Repr

/-- Run the steps in order, keeping the objects returned by `bindTo` so far; a `release` of
an object that was never returned does nothing. -/
def run (v : View) (w : World) (got : List Binding) : List Step → View × World
  | [] => (v, w)
  | Step.bindTo obj evt fn :: rest =>
    let r := bindTo v w obj evt fn
    run r.1 r.2.1 (got ++ [r.2.2]) rest
  | Step.release i :: rest =>
    match got.get? i with
    | none => run v w got rest
    | some b => run v (b.unbind w) got rest

/-- Is the step a `bindTo` call? -/
def Step.isBind : Step → Bool
  | Step.bindTo _ _ _ => true
  | Step.release _ => false

/-- The ledger invariant of the data model: each object in the ledger holds at least one
handler registered with the view as its context. -/
def LedgerInv (v : View) (w : World) : Prop :=
  ∀ obj ∈ v.ledger, w.handlersFor obj v.cid ≠ []

/-- A world in which bus 1 holds one handler, registered on it directly with view 0 as its
context (`bus.on('update', f, view)`, not through `bindTo`), and no call has been recorded. -/
def World.directlyBound : World :=
  { handlers := fun o => if o = 1 then [{ evt := "update", fn := 7, ctx := some 0 }] else []
    calls := [] }

/-- The calls a method has recorded when it returned, or `none` when it raised. -/
def callsOf (r : Except Error (View × World)) : Option (List Call) :=
  match r with
  | Except.ok p => some p.2.calls
  | Except.error _ => none

/-- The view a method returned, or `none` when it raised. -/
def viewOf (r : Except Error (View × World)) : Option View :=
  match r with
  | Except.ok p => some p.1
  | Except.error _ => none

/-! ## Lemmas on the evented-object operations -/

theorem selected_context (h : Handler) (c : Ref) :
    h.selected none none (some c) = decide (h.ctx = some c) := by
  simp [Handler.selected]

theorem off_handlers (w : World) (obj : Ref) (evt : Option String) (fn : Option Fn)
    (ctx : Option Ref) (o : Ref) :
    (w.off obj evt fn ctx).handlers o =
      if o = obj then (w.handlers o).filter (fun h => !h.selected evt fn ctx)
      else w.handlers o := rfl

theorem off_calls (w : World) (obj : Ref) (evt : Option String) (fn : Option Fn)
    (ctx : Option Ref) :
    (w.off obj evt fn ctx).calls = w.calls ++ [Call.off obj evt fn ctx] := rfl

/-- Detaching by context from each object of a list: an object of the list keeps exactly its
handlers of other contexts, every other object keeps all its handlers. -/
theorem foldl_off_handlers (c : Ref) (bs : List Ref) (w : World) (o : Ref) :
    (bs.foldl (fun w b => w.off b none none (some c)) w).handlers o =
      if o ∈ bs then (w.handlers o).filter (fun h => !decide (h.ctx = some c))
      else w.handlers o := by
  induction bs generalizing w with
  | nil => simp
  | cons b rest ih =>
    rw [List.foldl_cons, ih, off_handlers]
    by_cases hob : o = b
    · subst hob
      by_cases hmem : o ∈ rest
      · simp [hmem, selected_context, List.filter_filter]
      · simp [hmem, selected_context]
    · by_cases hmem : o ∈ rest
      · simp [hmem, hob]
      · simp [hmem, hob]

/-- The calls made while detaching by context from each object of a list: one `off` per
entry, in the order of the list. -/
theorem foldl_off_calls (c : Ref) (bs : List Ref) (w : World) :
    (bs.foldl (fun w b => w.off b none none (some c)) w).calls =
      w.calls ++ bs.map (fun b => Call.off b none none (some c)) := by
  induction bs generalizing w with
  | nil => simp
  | cons b rest ih =>
    rw [List.foldl_cons, ih, off_calls]
    simp

theorem unbind_view (v : View) (w : World) : (unbind v w).1 = v := by
  unfold unbind
  cases v._bindings <;> rfl

theorem unbind_handlers (v : View) (w : World) (o : Ref) :
    (unbind v w).2.handlers o =
      if o ∈ v.ledger then (w.handlers o).filter (fun h => !decide (h.ctx = some v.cid))
      else w.handlers o := by
  unfold unbind View.ledger
  cases hb : v._bindings with
  | none => simp
  | some bs => simp [foldl_off_handlers]

theorem unbind_calls (v : View) (w : World) :
    (unbind v w).2.calls =
      w.calls ++ v.ledger.map (fun b => Call.off b none none (some v.cid)) := by
  unfold unbind View.ledger
  cases hb : v._bindings with
  | none => simp
  | some bs => simp [foldl_off_calls]

theorem destroy_view (v : View) (w : World) : (destroy v w).1 = v := by
  simp [destroy, remove, unbind_view]

theorem destroy_handlers (v : View) (w : World) :
    (destroy v w).2.handlers = (unbind v w).2.handlers := rfl

theorem bindTo_cid (v : View) (w : World) (obj : Ref) (evt : String) (fn : Fn) :
    (bindTo v w obj evt fn).1.cid = v.cid := rfl

theorem bindTo_ledger (v : View) (w : World) (obj : Ref) (evt : String) (fn : Fn) :
    (bindTo v w obj evt fn).1.ledger = v.ledger ++ [obj] := rfl

theorem bindTo_handlers (v : View) (w : World) (obj : Ref) (evt : String) (fn : Fn)
    (o : Ref) :
    (bindTo v w obj evt fn).2.1.handlers o =
      if o = obj then w.handlers o ++ [{ evt := evt, fn := fn, ctx := some v.cid }]
      else w.handlers o := rfl

theorem run_cid (steps : List Step) (v : View) (w : World) (got : List Binding) :
    (run v w got steps).1.cid = v.cid := by
  induction steps generalizing v w got with
  | nil => rfl
  | cons s rest ih =>
    cases s with
    | bindTo obj evt fn =>
      simp only [run]
      rw [ih, bindTo_cid]
    | release i =>
      simp only [run]
      cases got.get? i with
      | none => exact ih v w got
      | some b => exact ih v (b.unbind w) got

/-- The ledger only grows: an entry stays through every later step. -/
theorem run_ledger_mono (steps : List Step) (v : View) (w : World) (got : List Binding)
    (o : Ref) (h : o ∈ v.ledger) : o ∈ (run v w got steps).1.ledger := by
  induction steps generalizing v w got with
  | nil => exact h
  | cons s rest ih =>
    cases s with
    | bindTo obj evt fn =>
      simp only [run]
      apply ih
      rw [bindTo_ledger]
      exact List.mem_append_left _ h
    | release i =>
      simp only [run]
      cases got.get? i with
      | none => exact ih v w got h
      | some b => exact ih v (b.unbind w) got h

/-- An object bound by some `bindTo` step is in the ledger at the end of the run. -/
theorem run_ledger_of_bind (steps : List Step) (v : View) (w : World) (got : List Binding)
    (obj : Ref) (evt : String) (fn : Fn) (h : Step.bindTo obj evt fn ∈ steps) :
    obj ∈ (run v w got steps).1.ledger := by
  induction steps generalizing v w got with
  | nil => exact absurd h (List.not_mem_nil _)
  | cons s rest ih =>
    rcases List.mem_cons.mp h with heq | hrest
    · subst heq
      simp only [run]
      apply run_ledger_mono
      rw [bindTo_ledger]
      exact List.mem_append_right _ (List.mem_singleton.mpr rfl)
    · cases s with
      | bindTo obj2 evt2 fn2 =>
        simp only [run]
        exact ih _ _ _ hrest
      | release i =>
        simp only [run]
        cases got.get? i with
        | none => exact ih v w got hrest
        | some b => exact ih v (b.unbind w) got hrest

/-- After `destroy()` an object of the ledger, wherever it stands in it, holds no handler
registered with the view as its context. -/
theorem destroy_detaches_ledger (v : View) (w : World) (obj : Ref) (h : obj ∈ v.ledger) :
    (destroy v w).2.handlersFor obj v.cid = [] := by
  unfold World.handlersFor
  rw [destroy_handlers, unbind_handlers, if_pos h, List.filter_filter]
  simp

theorem trigger_mem_context (w : World) (obj : Ref) (evt : String) (fn : Fn) (c : Ref)
    (h : (fn, some c) ∈ w.trigger obj evt) : w.handlersFor obj c ≠ [] := by
  simp only [World.trigger, List.mem_map, List.mem_filter] at h
  obtain ⟨x, ⟨hx, _⟩, hxe⟩ := h
  have hc : x.ctx = some c := congrArg Prod.snd hxe
  intro hnil
  have hmem : x ∈ w.handlersFor obj c := by
    simp [World.handlersFor, List.mem_filter, hx, hc]
  rw [hnil] at hmem
  exact List.not_mem_nil _ hmem

/-! ## The binding ledger -/

/-- C1, refuted as stated: with no `bindTo` call at all (the empty sequence), a bus that
holds a handler registered directly under the view's context still holds it after
`destroy()`, and an emission of `update` on the bus still invokes it on behalf of the view:
`unbind()` returns at its guard, the view has no ledger. -/
theorem destroy_without_bindTo_counterexample :
    (destroy (run (View.fresh 0 0) World.directlyBound [] []).1
      (run (View.fresh 0 0) World.directlyBound [] []).2).2.handlersFor 1 0 =
      [{ evt := "update", fn := 7, ctx := some 0 }] ∧
    (7, some 0) ∈ (destroy (run (View.fresh 0 0) World.directlyBound [] []).1
      (run (View.fresh 0 0) World.directlyBound [] []).2).2.trigger 1 "update" := by
  decide

/-- C1, amended: after any finite sequence of `bindTo` calls on a view that contains at least
one call `bindTo(obj, evt, fn)`, with calls on other objects (and calls of returned objects'
`unbind`) anywhere in between, `destroy()` leaves `obj` with no handler registered under the
view's context, and no emission on `obj` invokes a handler on behalf of the view. -/
theorem destroy_detaches_bound (v : View) (w : World) (steps : List Step) (obj : Ref)
    (evt : String) (fn : Fn) (h : Step.bindTo obj evt fn ∈ steps) :
    (destroy (run v w [] steps).1 (run v w [] steps).2).2.handlersFor obj v.cid = [] ∧
    ∀ e f, (f, some v.cid) ∉
      (destroy (run v w [] steps).1 (run v w [] steps).2).2.trigger obj e := by
  have key : (destroy (run v w [] steps).1 (run v w [] steps).2).2.handlersFor obj v.cid
      = [] := by
    have hd := destroy_detaches_ledger (run v w [] steps).1 (run v w [] steps).2 obj
      (run_ledger_of_bind steps v w [] obj evt fn h)
    rw [run_cid] at hd
    exact hd
  refine ⟨key, ?_⟩
  intro e f hmem
  exact trigger_mem_context _ _ _ _ _ hmem key

/-- Witness for the amended C1: bus 1 is bound first and bus 2 after it, in a world where
every object already holds a handler of view 9; after `destroy()` bus 1, which is not the
last entry of the ledger, holds no handler of view 0. -/
theorem destroy_detaches_bound_witness :
    Step.bindTo 1 "update" 7 ∈ [Step.bindTo 1 "update" 7, Step.bindTo 2 "reset" 8] ∧
    (destroy
      (run (View.fresh 0 0)
        { handlers := fun _ => [{ evt := "update", fn := 7, ctx := some 9 }], calls := [] }
        [] [Step.bindTo 1 "update" 7, Step.bindTo 2 "reset" 8]).1
      (run (View.fresh 0 0)
        { handlers := fun _ => [{ evt := "update", fn := 7, ctx := some 9 }], calls := [] }
        [] [Step.bindTo 1 "update" 7, Step.bindTo 2 "reset" 8]).2).2.handlersFor 1 0 = [] :=
  ⟨by decide,
   (destroy_detaches_bound (View.fresh 0 0)
      { handlers := fun _ => [{ evt := "update", fn := 7, ctx := some 9 }], calls := [] }
      [Step.bindTo 1 "update" 7, Step.bindTo 2 "reset" 8] 1 "update" 7 (by decide)).1⟩

/-- C2: `bindTo(source, evt, fn)` adds exactly the subscription `(evt, fn, context = view)` to
`source`, after the ones it held, and touches no other object; an emission of `evt` on
`source` then invokes `fn` with the view as context; `source` is appended to the end of the
ledger, which is created when absent, earlier entries unchanged and in order; the rest of
the view is unchanged and the returned object closes over `(source, evt, fn)`. -/
theorem bindTo_registers_and_appends (v : View) (w : World) (source : Ref) (evt : String)
    (fn : Fn) :
    (bindTo v w source evt fn).2.1.handlers source =
      w.handlers source ++ [{ evt := evt, fn := fn, ctx := some v.cid }] ∧
    (∀ o, o ≠ source → (bindTo v w source evt fn).2.1.handlers o = w.handlers o) ∧
    (bindTo v w source evt fn).2.1.calls = w.calls ++ [Call.on source evt fn (some v.cid)] ∧
    (fn, some v.cid) ∈ (bindTo v w source evt fn).2.1.trigger source evt ∧
    (bindTo v w source evt fn).1._bindings = some (v.ledger ++ [source]) ∧
    (bindTo v w source evt fn).1.cid = v.cid ∧
    (bindTo v w source evt fn).1.el = v.el ∧
    (bindTo v w source evt fn).2.2 = { obj := source, evt := evt, fn := fn } := by
  refine ⟨?_, ?_, rfl, ?_, rfl, rfl, rfl, rfl⟩
  · simp [bindTo_handlers]
  · intro o ho
    simp [bindTo_handlers, ho]
  · simp [World.trigger, bindTo_handlers]

/-- What the `unbind` operation of a returned object does: it detaches from its object every
subscription with its event and its handler, whatever the context, keeps every other
subscription in order, and touches no other object. -/
theorem binding_unbind_handlers (b : Binding) (w : World) (o : Ref) :
    (b.unbind w).handlers o =
      if o = b.obj then
        (w.handlers o).filter (fun h => !(decide (h.evt = b.evt) && decide (h.fn = b.fn)))
      else w.handlers o := by
  simp [Binding.unbind, off_handlers, Handler.selected]

/-- C3, evaluated: views 9 and 0 both bind handler 7 to `update` on bus 1.  Calling the
`unbind` operation of the object returned to view 0 empties the bus: the subscription of
view 9, same event and same handler under another context, is detached as well. -/
theorem binding_unbind_detaches_other_context :
    ({ evt := "update", fn := 7, ctx := some 9 } : Handler) ∈
      (bindTo (View.fresh 0 0) (bindTo (View.fresh 9 9) World.empty 1 "update" 7).2.1
        1 "update" 7).2.1.handlers 1 ∧
    ((bindTo (View.fresh 0 0) (bindTo (View.fresh 9 9) World.empty 1 "update" 7).2.1
        1 "update" 7).2.2.unbind
      (bindTo (View.fresh 0 0) (bindTo (View.fresh 9 9) World.empty 1 "update" 7).2.1
        1 "update" 7).2.1).handlers 1 = [] := by
  decide

/-- C5: on a view with no ledger (no `bindTo` call so far) `unbind()` returns the view and the
world as they were: no handler table changes and no call is made on any object. -/
theorem unbind_without_ledger (v : View) (w : World) (h : v._bindings = none) :
    unbind v w = (v, w) ∧ (unbind v w).2.calls = w.calls := by
  simp [unbind, h]

/-- Witness for C5: a new view in a world where a bus holds a handler. -/
theorem unbind_without_ledger_witness :
    (View.fresh 0 0)._bindings = none ∧
    (unbind (View.fresh 0 0)
      { handlers := fun _ => [{ evt := "update", fn := 7, ctx := some 0 }], calls := [] }).2.calls
      = [] :=
  ⟨rfl, (unbind_without_ledger (View.fresh 0 0)
    { handlers := fun _ => [{ evt := "update", fn := 7, ctx := some 0 }], calls := [] } rfl).2⟩

/-- C6: `unbind()` leaves the view, and so its ledger, exactly as it was, and a second
`unbind()` changes neither the view nor the handler table of any object. -/
theorem unbind_idempotent (v : View) (w : World) :
    (unbind v w).1 = v ∧
    (unbind v w).1._bindings = v._bindings ∧
    (unbind (unbind v w).1 (unbind v w).2).1 = (unbind v w).1 ∧
    (unbind (unbind v w).1 (unbind v w).2).2.handlers = (unbind v w).2.handlers := by
  refine ⟨unbind_view v w, by rw [unbind_view], by rw [unbind_view], ?_⟩
  funext o
  rw [unbind_handlers, unbind_view, unbind_handlers]
  split
  · rw [List.filter_filter]
    simp
  · rfl

/-- C8: `destroy()` is `unbind()` followed by the host's `remove()`: the view is unchanged,
the handler tables are those `unbind()` leaves, and the calls it adds are the `off` calls of
`unbind()`, one per ledger entry in order, then the one `remove` call; no call of the
`preDestroy` hook is among them. -/
theorem destroy_is_unbind_then_remove (v : View) (w : World) :
    destroy v w = remove (unbind v w).1 (unbind v w).2 ∧
    (destroy v w).1 = v ∧
    (destroy v w).2.handlers = (unbind v w).2.handlers ∧
    (destroy v w).2.calls = (unbind v w).2.calls ++ [Call.remove v.cid] ∧
    (destroy v w).2.calls =
      w.calls ++ (v.ledger.map (fun b => Call.off b none none (some v.cid)) ++
        [Call.remove v.cid]) ∧
    ∀ x, Call.preDestroy x ∉
      v.ledger.map (fun b => Call.off b none none (some v.cid)) ++ [Call.remove v.cid] := by
  refine ⟨rfl, destroy_view v w, rfl, ?_, ?_, ?_⟩
  · simp [destroy, remove, World.record, unbind_view]
  · simp [destroy, remove, World.record, unbind_view, unbind_calls]
  · intro x
    simp

/-! ## The ledger invariant -/

theorem bindTo_preserves_inv (v : View) (w : World) (obj : Ref) (evt : String) (fn : Fn)
    (h : LedgerInv v w) :
    LedgerInv (bindTo v w obj evt fn).1 (bindTo v w obj evt fn).2.1 := by
  intro o ho
  rw [bindTo_ledger] at ho
  rw [bindTo_cid]
  unfold World.handlersFor
  rw [bindTo_handlers]
  by_cases hob : o = obj
  · rw [if_pos hob, List.filter_append]
    simp
  · rw [if_neg hob]
    have hmem : o ∈ v.ledger := by
      rcases List.mem_append.mp ho with h1 | h1
      · exact h1
      · exact absurd (List.mem_singleton.mp h1) hob
    exact h o hmem

theorem run_preserves_inv (steps : List Step) (v : View) (w : World) (got : List Binding)
    (h : LedgerInv v w) (hs : ∀ s ∈ steps, s.isBind = true) :
    LedgerInv (run v w got steps).1 (run v w got steps).2 := by
  induction steps generalizing v w got with
  | nil => exact h
  | cons s rest ih =>
    cases s with
    | bindTo obj evt fn =>
      simp only [run]
      exact ih _ _ _ (bindTo_preserves_inv v w obj evt fn h)
        (fun s hmem => hs s (List.mem_cons_of_mem _ hmem))
    | release i =>
      have hfalse := hs (Step.release i) (List.mem_cons_self _ _)
      simp [Step.isBind] at hfalse

/-- C7, refuted as stated: a new view binds handler 7 to `update` on bus 1 and then calls the
`unbind` operation of the returned object.  Bus 1 is still in the ledger and holds no handler
under the view's context, so the ledger invariant fails in a state reached by a `bindTo`
call and a call of its returned object only. -/
theorem ledger_invariant_counterexample :
    (run (View.fresh 0 0) World.empty [] [Step.bindTo 1 "update" 7, Step.release 0]).1.ledger
      = [1] ∧
    (run (View.fresh 0 0) World.empty [] [Step.bindTo 1 "update" 7, Step.release 0]).2.handlersFor
      1 0 = [] ∧
    ¬ LedgerInv
      (run (View.fresh 0 0) World.empty [] [Step.bindTo 1 "update" 7, Step.release 0]).1
      (run (View.fresh 0 0) World.empty [] [Step.bindTo 1 "update" 7, Step.release 0]).2 := by
  refine ⟨by decide, by decide, ?_⟩
  intro hinv
  exact hinv 1 (by decide) (by decide)

/-- C7, amended: in every state reached from a new view (no ledger yet) by `bindTo` calls
alone, every object in the ledger holds at least one handler registered with the view as its
context. -/
theorem ledger_invariant_bindTo_only (v : View) (w : World) (steps : List Step)
    (hv : v._bindings = none) (hs : ∀ s ∈ steps, s.isBind = true) :
    LedgerInv (run v w [] steps).1 (run v w [] steps).2 := by
  apply run_preserves_inv steps v w [] _ hs
  intro o ho
  simp [View.ledger, hv] at ho

/-- Witness for the amended C7: two `bindTo` calls on a new view. -/
theorem ledger_invariant_bindTo_only_witness :
    LedgerInv
      (run (View.fresh 0 0) World.empty [] [Step.bindTo 1 "update" 7, Step.bindTo 2 "reset" 8]).1
      (run (View.fresh 0 0) World.empty [] [Step.bindTo 1 "update" 7, Step.bindTo 2 "reset" 8]).2 :=
  ledger_invariant_bindTo_only (View.fresh 0 0) World.empty
    [Step.bindTo 1 "update" 7, Step.bindTo 2 "reset" 8] rfl (by decide)

/-! ## Placement -/

theorem orDefault_of_nonempty (p d : String) (h : p ≠ "") : orDefault (some p) d = p := by
  simp [orDefault, h]

theorem methodTable_fallback (proto : String → Bool) (p : String) (h1 : p ≠ "first")
    (h2 : p ≠ "last") (h3 : p ≠ "only") (hp : proto p = false) :
    (methodTable proto p).orHtml = Member.own Method.html := by
  simp [methodTable, h1, h2, h3, hp, Member.orHtml]

/-- Whenever the lookup does not land on an inherited member, `placeAt` records exactly two
calls, the insertion of the view's root into the destination and then the `postPlaceAt`
hook, and returns the view it was called on. -/
theorem placeAt_hook_after_insert (proto : String → Bool) (v : View) (w : World) (node : Node)
    (position : Option String)
    (h : methodTable proto (orDefault position "last") ≠ Member.inherited) :
    ∃ method, placeAt proto v w node position =
      Except.ok (v, (w.record (Call.insert (Target.document node) method v.el)).record
        (Call.postPlaceAt v.cid)) := by
  cases hm : methodTable proto (orDefault position "last") with
  | own m => exact ⟨m, by simp only [placeAt, hm, Member.orHtml, postPlaceAt]⟩
  | inherited => exact absurd hm h
  | undefined => exact ⟨Method.html, by simp only [placeAt, hm, Member.orHtml, postPlaceAt]⟩

/-- C4, refuted as stated: the empty string is a position string other than `'first'`,
`'last'` and `'only'`, yet `placeAt(3, '')` inserts by `append` (the empty string is falsy, so
`position || 'last'` reads it as omitted) where `placeAt(3, 'only')` inserts by `html`. -/
theorem placeAt_empty_position_counterexample :
    ("" : String) ≠ "first" ∧ ("" : String) ≠ "last" ∧ ("" : String) ≠ "only" ∧
    callsOf (placeAt es5ObjectPrototype (View.fresh 0 5) World.empty 3 (some "")) =
      some [Call.insert (Target.document 3) Method.append 5, Call.postPlaceAt 0] ∧
    callsOf (placeAt es5ObjectPrototype (View.fresh 0 5) World.empty 3 (some "only")) =
      some [Call.insert (Target.document 3) Method.html 5, Call.postPlaceAt 0] := by
  decide

/-- C4, amended: `placeAt` inserts the view's root by `prepend` for `'first'`, by `append` for
`'last'`, for an omitted position and for the empty string, and by `html` for `'only'`; every
other non-empty position string that names no member inherited from `Object.prototype` gives
the same result as `'only'`, without raising.  `placeIn` selects its method in the same way. -/
theorem placement_method_selection (proto : String → Bool) (v : View) (w : World)
    (node el : Node) (p : String) (hne : p ≠ "") (h1 : p ≠ "first") (h2 : p ≠ "last")
    (h3 : p ≠ "only") (hp : proto p = false) :
    placeAt proto v w node (some "first") =
      Except.ok (v, (w.record (Call.insert (Target.document node) Method.prepend v.el)).record
        (Call.postPlaceAt v.cid)) ∧
    placeAt proto v w node (some "last") =
      Except.ok (v, (w.record (Call.insert (Target.document node) Method.append v.el)).record
        (Call.postPlaceAt v.cid)) ∧
    placeAt proto v w node none = placeAt proto v w node (some "last") ∧
    placeAt proto v w node (some "") = placeAt proto v w node (some "last") ∧
    placeAt proto v w node (some "only") =
      Except.ok (v, (w.record (Call.insert (Target.document node) Method.html v.el)).record
        (Call.postPlaceAt v.cid)) ∧
    placeAt proto v w node (some p) = placeAt proto v w node (some "only") ∧
    placeIn proto v w el node (some "first") =
      Except.ok (v, w.record (Call.insert (Target.within v.el node) Method.prepend el)) ∧
    placeIn proto v w el node (some "last") =
      Except.ok (v, w.record (Call.insert (Target.within v.el node) Method.append el)) ∧
    placeIn proto v w el node none = placeIn proto v w el node (some "last") ∧
    placeIn proto v w el node (some "") = placeIn proto v w el node (some "last") ∧
    placeIn proto v w el node (some "only") =
      Except.ok (v, w.record (Call.insert (Target.within v.el node) Method.html el)) ∧
    placeIn proto v w el node (some p) = placeIn proto v w el node (some "only") := by
  have hfirst : (methodTable proto "first").orHtml = Member.own Method.prepend := by
    simp [methodTable, Member.orHtml]
  have hlast : (methodTable proto "last").orHtml = Member.own Method.append := by
    simp [methodTable, Member.orHtml]
  have honly : (methodTable proto "only").orHtml = Member.own Method.html := by
    simp [methodTable, Member.orHtml]
  have hp' := methodTable_fallback proto p h1 h2 h3 hp
  have d1 : orDefault (some "first") "last" = "first" := by decide
  have d2 : orDefault (some "last") "last" = "last" := by decide
  have d3 : orDefault (some "only") "last" = "only" := by decide
  have d4 : orDefault none "last" = "last" := rfl
  have d5 : orDefault (some "") "last" = "last" := by decide
  have d6 : orDefault (some p) "last" = p := orDefault_of_nonempty p "last" hne
  refine ⟨?_, ?_, ?_, ?_, ?_, ?_, ?_, ?_, ?_, ?_, ?_, ?_⟩
  · simp only [placeAt, d1, hfirst, postPlaceAt]
  · simp only [placeAt, d2, hlast, postPlaceAt]
  · simp only [placeAt, d4, d2]
  · simp only [placeAt, d5, d2]
  · simp only [placeAt, d3, honly, postPlaceAt]
  · simp only [placeAt, d6, d3, hp', honly]
  · simp only [placeIn, d1, hfirst]
  · simp only [placeIn, d2, hlast]
  · simp only [placeIn, d4, d2]
  · simp only [placeIn, d5, d2]
  · simp only [placeIn, d3, honly]
  · simp only [placeIn, d6, d3, hp', honly]

/-- Witness for the amended C4: the unrecognized position `'middle'`. -/
theorem placement_method_selection_witness :
    placeAt es5ObjectPrototype (View.fresh 0 5) World.empty 3 (some "middle") =
      placeAt es5ObjectPrototype (View.fresh 0 5) World.empty 3 (some "only") :=
  (placement_method_selection es5ObjectPrototype (View.fresh 0 5) World.empty 3 4 "middle"
    (by decide) (by decide) (by decide) (by decide) (by decide)).2.2.2.2.2.1

/-- C9, evaluated: `'constructor'` is a position string, and the lookup table, an object
literal, inherits a member of that name from `Object.prototype`.  The member is truthy, so
`|| 'html'` does not apply; `$(node)[method]` is then no function and `placeAt(3,
'constructor')` raises: no insertion is made, `postPlaceAt` is not invoked and no view is
returned. -/
theorem placeAt_inherited_name_raises :
    methodTable es5ObjectPrototype "constructor" = Member.inherited ∧
    placeAt es5ObjectPrototype (View.fresh 0 5) World.empty 3 (some "constructor") =
      Except.error Error.typeError ∧
    callsOf (placeAt es5ObjectPrototype (View.fresh 0 5) World.empty 3 (some "constructor")) =
      none ∧
    viewOf (placeAt es5ObjectPrototype (View.fresh 0 5) World.empty 3 (some "constructor")) =
      none := by
  refine ⟨by decide, ?_, by decide, by decide⟩
  have hm : (methodTable es5ObjectPrototype "constructor").orHtml = Member.inherited := by
    decide
  have hd : orDefault (some "constructor") "last" = "constructor" := by decide
  simp only [placeAt, hd, hm]

/-! ## The progress bar -/

/-- C10, refuted as stated: `progressBar(0, 'custom')` builds a bar of width `100%`, not `0%`
(`0` is falsy, so `width || 100` reads it as omitted), and the class attribute of the fragment
is `progress custom`, so its class list is `progress`, `custom` and not `custom` alone; the
same class list comes with `progressBar(50, 'custom')`. -/
theorem progressBar_counterexample :
    (progressBar (View.fresh 0 5) World.empty (some JsValue.zero)
      (some "custom")).1.innerHTML = barMarkup "100" ∧
    (progressBar (View.fresh 0 5) World.empty (some JsValue.zero)
      (some "custom")).1.innerHTML ≠ barMarkup "0" ∧
    (progressBar (View.fresh 0 5) World.empty (some JsValue.zero)
      (some "custom")).1.classList = ["progress", "custom"] ∧
    (progressBar (View.fresh 0 5) World.empty (some JsValue.fifty)
      (some "custom")).1.classList = ["progress", "custom"] ∧
    (progressBar (View.fresh 0 5) World.empty (some JsValue.fifty)
      (some "custom")).1.classList ≠ ["custom"] := by
  decide

/-- C10, amended: with no arguments `progressBar` builds a `div` whose inner bar has width
`100%` and whose class attribute is `progress progress-striped active`, so that its class
list includes the striped and animated defaults; for every truthy width `x` (any number other
than `0` and `NaN`, integer or not, of either sign) and every non-empty class string `c` it
builds a `div` whose inner bar has the width `x` as JavaScript prints it, followed by `%`,
and whose class attribute is `'progress ' + c`; a falsy width such as `0` gives `100%`, an
empty or omitted class string gives the default classes, an omitted width gives `100%`; in
every case the view and the world come back unchanged. -/
theorem progressBar_result (v : View) (w : World) (x : JsValue) (c : String)
    (hx : x.falsy = false) (hc : c ≠ "") :
    progressBar v w none none =
      (make "div" [("class", "progress progress-striped active")] (barMarkup "100"), v, w) ∧
    "progress-striped" ∈ (progressBar v w none none).1.classList ∧
    "active" ∈ (progressBar v w none none).1.classList ∧
    progressBar v w (some x) (some c) =
      (make "div" [("class", "progress " ++ c)] (barMarkup x.text), v, w) ∧
    (∀ z : JsValue, z.falsy = true → progressBar v w (some z) (some c) =
      (make "div" [("class", "progress " ++ c)] (barMarkup "100"), v, w)) ∧
    progressBar v w none (some c) =
      (make "div" [("class", "progress " ++ c)] (barMarkup "100"), v, w) ∧
    progressBar v w (some x) (some "") =
      (make "div" [("class", "progress progress-striped active")] (barMarkup x.text), v, w) ∧
    progressBar v w (some x) none =
      (make "div" [("class", "progress progress-striped active")] (barMarkup x.text), v, w) ∧
    (∀ width classes, (progressBar v w width classes).2 = (v, w)) := by
  have e1 : orDefaultValue (some x) JsValue.hundred = x := by simp [orDefaultValue, hx]
  have e2 : orDefault (some c) "progress-striped active" = c := orDefault_of_nonempty c _ hc
  have e3 : JsValue.hundred.text = "100" := rfl
  have e4 : ("progress " ++ "progress-striped active" : String)
      = "progress progress-striped active" := by decide
  have e5 : (make "div" [("class", "progress progress-striped active")]
      (barMarkup "100")).classList = ["progress", "progress-striped", "active"] := by decide
  have e6 : orDefault (some "") "progress-striped active" = "progress-striped active" := by
    decide
  have e7 : orDefault none "progress-striped active" = "progress-striped active" := rfl
  have e8 : orDefaultValue none JsValue.hundred = JsValue.hundred := rfl
  have e0 : progressBar v w none none =
      (make "div" [("class", "progress progress-striped active")] (barMarkup "100"), v, w) := by
    simp only [progressBar, e7, e8, barMarkup, e3, e4]
  refine ⟨e0, ?_, ?_, ?_, ?_, ?_, ?_, ?_, fun _ _ => rfl⟩
  · rw [e0, e5]
    decide
  · rw [e0, e5]
    decide
  · simp only [progressBar, e1, e2, barMarkup]
  · intro z hz
    have ez : orDefaultValue (some z) JsValue.hundred = JsValue.hundred := by
      simp [orDefaultValue, hz]
    simp only [progressBar, ez, e2, barMarkup, e3]
  · simp only [progressBar, e8, e2, barMarkup, e3]
  · simp only [progressBar, e1, e6, e4, barMarkup]
  · simp only [progressBar, e1, e7, e4, barMarkup]

/-- Witness for the amended C10: the example `progressBar(50, 'custom')`, width `50%` and
class attribute `progress custom`. -/
theorem progressBar_result_witness :
    JsValue.fifty.falsy = false ∧
    progressBar (View.fresh 0 5) World.empty (some JsValue.fifty) (some "custom") =
      (make "div" [("class", "progress " ++ "custom")] (barMarkup JsValue.fifty.text),
        View.fresh 0 5, World.empty) :=
  ⟨rfl, (progressBar_result (View.fresh 0 5) World.empty JsValue.fifty "custom" rfl
    (by decide)).2.2.2.1⟩

/-- A width that is neither a natural number nor an integer: `progressBar(-12.5, 'custom')`
builds a bar of width `-12.5%`. -/
theorem progressBar_fractional_width :
    (progressBar (View.fresh 0 5) World.empty (some JsValue.minusTwelveAndHalf)
      (some "custom")).1.innerHTML = barMarkup "-12.5" := by
  decide

end SuperView
